import Mathlib

/-!
Verification development for the FX hedging dashboard (`Hedge_app.py`).

The file shallowly embeds the parts of the program that carry design
content: the live-rate fetcher with its two-provider fallback
(`get_live_rate`), the per-pair CSV log loader
(`load_hedge_log_for_pair`), column-name normalization, the derived
performance statistics (RMSE / MAE), decision filtering, the decision
simulator, and the fallback `.env` credential parser.  Machine floats
are modelled as rationals, `None` as `Option.none`, and the external
world (HTTP providers, file system, process environment) as explicit
parameters.
-/

/-- The whitespace characters removed by Python `str.strip()`
(ASCII subset; the log files' column names are ASCII). -/
def isPySpace (c : Char) : Bool :=
  c = ' ' || c = '\t' || c = '\n' || c = '\r' || c = '\x0b' || c = '\x0c'

/-- Python `str.strip()`: drop trailing whitespace (via reverse), then
leading whitespace.  Embeds the `.str.strip()` step of
`df.columns.str.strip()` (Hedge_app.py lines 127 and 183). -/
def pyStrip (l : List Char) : List Char :=
  List.dropWhile isPySpace ((List.dropWhile isPySpace l.reverse).reverse)

/-- The character substitution of Python `str.replace(" ", "_")`. -/
def spaceToUnderscore (c : Char) : Char :=
  if c = ' ' then '_' else c

/-- Python `str.replace(" ", "_")` on a whole string: every space becomes
an underscore (Hedge_app.py lines 127 and 183). -/
def pyReplaceSpace (l : List Char) : List Char :=
  l.map spaceToUnderscore

/-- Column-name normalization from the source:
`df.columns.str.strip().str.replace(" ", "_")`. -/
def normalizeChars (l : List Char) : List Char :=
  pyReplaceSpace (pyStrip l)

/-- Column-name normalization on `String`. -/
def normalizeCol (s : String) : String :=
  String.mk (normalizeChars s.data)

lemma spaceToUnderscore_ne_space (c : Char) : spaceToUnderscore c ≠ ' ' := by
  unfold spaceToUnderscore
  split
  · decide
  · assumption

lemma spaceToUnderscore_idem (c : Char) :
    spaceToUnderscore (spaceToUnderscore c) = spaceToUnderscore c := by
  unfold spaceToUnderscore
  split <;> simp

lemma isPySpace_spaceToUnderscore {c : Char} (h : isPySpace c = false) :
    isPySpace (spaceToUnderscore c) = false := by
  unfold spaceToUnderscore
  split
  · decide
  · exact h

lemma head?_dropWhile_false {p : Char → Bool} {X : List Char} {c : Char}
    (h : (List.dropWhile p X).head? = some c) : p c = false := by
  induction X with
  | nil => simp [List.dropWhile] at h
  | cons x xs ih =>
    by_cases hx : p x
    · rw [List.dropWhile_cons_of_pos hx] at h
      exact ih h
    · rw [List.dropWhile_cons_of_neg hx] at h
      simp at h
      rw [← h]
      simpa using hx

lemma dropWhile_eq_self_of_head {p : Char → Bool} {X : List Char}
    (h : ∀ c, X.head? = some c → p c = false) : List.dropWhile p X = X := by
  cases X with
  | nil => rfl
  | cons x xs =>
    have := h x rfl
    rw [List.dropWhile_cons_of_neg (by simp [this])]

lemma dropWhile_eq_self_of_mem {p : Char → Bool} {X : List Char}
    (h : ∀ c ∈ X, p c = false) : List.dropWhile p X = X := by
  cases X with
  | nil => rfl
  | cons x xs =>
    have := h x (by simp)
    rw [List.dropWhile_cons_of_neg (by simp [this])]

lemma reverse_head?_dropWhile {p : Char → Bool} {Y : List Char}
    (h : List.dropWhile p Y ≠ []) :
    (List.dropWhile p Y).reverse.head? = Y.reverse.head? := by
  induction Y with
  | nil => simp [List.dropWhile] at h
  | cons y ys ih =>
    by_cases hy : p y
    · rw [List.dropWhile_cons_of_pos hy] at h ⊢
      have hys : ys ≠ [] := by
        intro hnil
        rw [hnil] at h
        simp [List.dropWhile] at h
      rw [ih h]
      rcases hrev : ys.reverse with _ | ⟨a, t⟩
      · exact absurd (by simpa using hrev) hys
      · simp [hrev]
    · rw [List.dropWhile_cons_of_neg hy]

lemma map_eq_self_of_fix {f : Char → Char} {X : List Char}
    (h : ∀ c ∈ X, f c = c) : X.map f = X := by
  induction X with
  | nil => rfl
  | cons x xs ih =>
    simp only [List.map_cons, h x (by simp)]
    rw [ih (fun c hc => h c (by simp [hc]))]

/-- The head of a stripped list is not whitespace. -/
lemma pyStrip_head_not_space {l : List Char} {c : Char}
    (h : (pyStrip l).head? = some c) : isPySpace c = false := by
  exact head?_dropWhile_false h

/-- The last element (head of the reverse) of a stripped list is not
whitespace. -/
lemma pyStrip_last_not_space {l : List Char} {c : Char}
    (h : (pyStrip l).reverse.head? = some c) : isPySpace c = false := by
  unfold pyStrip at h
  have hne : List.dropWhile isPySpace ((List.dropWhile isPySpace l.reverse).reverse) ≠ [] := by
    intro hnil
    rw [hnil] at h
    simp at h
  rw [reverse_head?_dropWhile hne] at h
  rw [List.reverse_reverse] at h
  exact head?_dropWhile_false h

/-- Every character of a normalized name is a non-space. -/
lemma normalizeChars_no_space {l : List Char} {c : Char}
    (h : c ∈ normalizeChars l) : c ≠ ' ' := by
  unfold normalizeChars pyReplaceSpace at h
  obtain ⟨x, _, hx⟩ := List.mem_map.mp h
  rw [← hx]
  exact spaceToUnderscore_ne_space x

lemma normalizeChars_head {l : List Char} {c : Char}
    (h : (normalizeChars l).head? = some c) : isPySpace c = false := by
  unfold normalizeChars pyReplaceSpace at h
  rw [List.head?_map] at h
  rcases hh : (pyStrip l).head? with _ | c₀
  · rw [hh] at h; simp at h
  · rw [hh] at h
    simp at h
    rw [← h]
    exact isPySpace_spaceToUnderscore (pyStrip_head_not_space hh)

lemma normalizeChars_last {l : List Char} {c : Char}
    (h : (normalizeChars l).reverse.head? = some c) : isPySpace c = false := by
  unfold normalizeChars pyReplaceSpace at h
  rw [← List.map_reverse, List.head?_map] at h
  rcases hh : (pyStrip l).reverse.head? with _ | c₀
  · rw [hh] at h; simp at h
  · rw [hh] at h
    simp at h
    rw [← h]
    exact isPySpace_spaceToUnderscore (pyStrip_last_not_space hh)

/-- A list whose head, last and members are already clean is fixed by
normalization. -/
lemma normalizeChars_eq_self {G : List Char}
    (hmem : ∀ c ∈ G, c ≠ ' ')
    (hhead : ∀ c, G.head? = some c → isPySpace c = false)
    (hlast : ∀ c, G.reverse.head? = some c → isPySpace c = false) :
    normalizeChars G = G := by
  unfold normalizeChars pyStrip pyReplaceSpace
  rw [dropWhile_eq_self_of_head hlast]
  rw [List.reverse_reverse]
  rw [dropWhile_eq_self_of_head hhead]
  apply map_eq_self_of_fix
  intro c hc
  unfold spaceToUnderscore
  split
  · exact absurd (by assumption) (hmem c hc)
  · rfl

/-- Column-name normalization is idempotent on character lists. -/
lemma normalizeChars_idem (l : List Char) :
    normalizeChars (normalizeChars l) = normalizeChars l := by
  apply normalizeChars_eq_self
  · intro c hc; exact normalizeChars_no_space hc
  · intro c hc; exact normalizeChars_head hc
  · intro c hc; exact normalizeChars_last hc

lemma normalizeCol_idem (s : String) :
    normalizeCol (normalizeCol s) = normalizeCol s := by
  unfold normalizeCol
  exact congrArg String.mk (normalizeChars_idem s.data)

/-- Normalization fixes any name whose characters contain no whitespace
at all (used for the synthetic `col_i` names). -/
lemma normalizeChars_eq_self_of_no_ws {G : List Char}
    (h : ∀ c ∈ G, isPySpace c = false) : normalizeChars G = G := by
  apply normalizeChars_eq_self
  · intro c hc hsp
    have := h c hc
    rw [hsp] at this
    simp [isPySpace] at this
  · intro c hc
    cases G with
    | nil => simp at hc
    | cons x xs =>
      simp at hc
      rw [← hc]
      exact h x (by simp)
  · intro c hc
    rcases hrev : G.reverse with _ | ⟨a, t⟩
    · rw [hrev] at hc; simp at hc
    · rw [hrev] at hc
      simp at hc
      have : c ∈ G.reverse := by rw [hrev, hc]; simp
      exact h c (by simpa using this)

/-- C5: Column-name normalization (strip leading/trailing whitespace, then
replace spaces with underscores) is idempotent: applying the normalization
to an already-normalized collection of column names returns it unchanged. -/
theorem c5_normalize_columns_idempotent (cols : List String) :
    (cols.map normalizeCol).map normalizeCol = cols.map normalizeCol := by
  rw [List.map_map]
  apply List.map_congr_left
  intro s _
  exact normalizeCol_idem s

/-!
## RateFetcher: `get_live_rate` (Hedge_app.py lines 77-98)

The two HTTP providers are modelled by their observable behaviour at the
rate position of the parsed JSON body.  Machine floats are rationals.
-/

/-- A JSON value found at the rate position of a provider response.
`floatable q` is a value that Python `float(...)` converts to the float
modelled by `q` (numbers and numeric strings); `unfloatable` is a value
on which `float(...)` raises (caught by the surrounding `except`). -/
inductive RateJson where
  | floatable (q : ℚ)
  | unfloatable
deriving DecidableEq

/-- The behaviour of one provider call as seen through
`requests.get(...).json()` and the `.get(...)` chain: `err` is a network
failure, a non-2xx response (`raise_for_status`), a non-JSON body, or a
body on which the `.get` chain raises; `ok none` is a well-formed body
with no rate for the quote currency; `ok (some v)` is a body carrying
value `v` at the rate position. -/
inductive ProviderResult where
  | err
  | ok (rate : Option RateJson)
deriving DecidableEq

/-- What one invocation of `get_live_rate` did: the value it returned
and which of the two providers it actually called. -/
structure FetchOutcome where
  rate : Option ℚ
  primaryCalled : Bool
  secondaryCalled : Bool
deriving DecidableEq

/-- The fallback block of `get_live_rate` (lines 90-96): the secondary
provider's rate, with every exception path collapsing to the final
`return None`. -/
def secondaryRate : ProviderResult → Option ℚ
  | ProviderResult.err => none
  | ProviderResult.ok none => none
  | ProviderResult.ok (some (RateJson.floatable q)) => some q
  | ProviderResult.ok (some RateJson.unfloatable) => none

/-- `get_live_rate` (lines 77-98).  The module-level `_API_KEY` and the
behaviour of the two providers are explicit parameters.  With a key, the
primary is tried first and its numeric rate returned immediately; on any
primary failure (exception, missing rate, unfloatable rate) the code
falls through to the secondary block. -/
def get_live_rate (apiKey : Option String)
    (primary secondary : ProviderResult) : FetchOutcome :=
  match apiKey with
  | none => ⟨secondaryRate secondary, false, true⟩
  | some _ =>
    match primary with
    | ProviderResult.ok (some (RateJson.floatable q)) => ⟨some q, true, false⟩
    | _ => ⟨secondaryRate secondary, true, true⟩

lemma secondaryRate_cases (s : ProviderResult) :
    secondaryRate s = none ∨
    ∃ q, secondaryRate s = some q ∧ s = ProviderResult.ok (some (RateJson.floatable q)) := by
  cases s with
  | err => exact Or.inl rfl
  | ok r =>
    cases r with
    | none => exact Or.inl rfl
    | some v =>
      cases v with
      | floatable q => exact Or.inr ⟨q, rfl, rfl⟩
      | unfloatable => exact Or.inl rfl

/-- C1 as stated is false: the claim requires every non-`None` result to
be positive, but `get_live_rate` returns whatever float the provider
supplied.  With the primary responding with the rate `-1`, the function
returns `-1`, which is not positive. -/
theorem c1_counterexample :
    ¬ ((get_live_rate (some "k")
          (ProviderResult.ok (some (RateJson.floatable (-1)))) ProviderResult.err).rate = none ∨
        ∃ q, (get_live_rate (some "k")
          (ProviderResult.ok (some (RateJson.floatable (-1)))) ProviderResult.err).rate = some q ∧
          0 < q) := by
  intro h
  have hr : (get_live_rate (some "k")
      (ProviderResult.ok (some (RateJson.floatable (-1)))) ProviderResult.err).rate =
      some (-1) := rfl
  rcases h with h | ⟨q, hq, hpos⟩
  · rw [hr] at h
    exact Option.noConfusion h
  · rw [hr] at hq
    have hq1 : (-1 : ℚ) = q := by injection hq
    rw [← hq1] at hpos
    norm_num at hpos

/-- C1 amended: for every credential state and every behaviour of the two
providers, `get_live_rate` returns a value (never raises), and that value
is either `none` ("unavailable") or a finite float equal to a rate one of
the two providers supplied — with no positivity guarantee. -/
theorem c1_amended_never_raises (apiKey : Option String)
    (primary secondary : ProviderResult) :
    (get_live_rate apiKey primary secondary).rate = none ∨
    ∃ q, (get_live_rate apiKey primary secondary).rate = some q ∧
      (primary = ProviderResult.ok (some (RateJson.floatable q)) ∨
       secondary = ProviderResult.ok (some (RateJson.floatable q))) := by
  cases apiKey with
  | none =>
    rcases secondaryRate_cases secondary with h | ⟨q, hq, hs⟩
    · exact Or.inl (by simpa [get_live_rate] using h)
    · exact Or.inr ⟨q, by simpa [get_live_rate] using hq, Or.inr hs⟩
  | some k =>
    cases primary with
    | err =>
      rcases secondaryRate_cases secondary with h | ⟨q, hq, hs⟩
      · exact Or.inl (by simpa [get_live_rate] using h)
      · exact Or.inr ⟨q, by simpa [get_live_rate] using hq, Or.inr hs⟩
    | ok r =>
      cases r with
      | none =>
        rcases secondaryRate_cases secondary with h | ⟨q, hq, hs⟩
        · exact Or.inl (by simpa [get_live_rate] using h)
        · exact Or.inr ⟨q, by simpa [get_live_rate] using hq, Or.inr hs⟩
      | some v =>
        cases v with
        | floatable q => exact Or.inr ⟨q, rfl, Or.inl rfl⟩
        | unfloatable =>
          rcases secondaryRate_cases secondary with h | ⟨q, hq, hs⟩
          · exact Or.inl (by simpa [get_live_rate] using h)
          · exact Or.inr ⟨q, by simpa [get_live_rate] using hq, Or.inr hs⟩

/-- C2: whenever a credential is configured and the primary provider call
succeeds with a numeric rate for the quote currency, `get_live_rate`
returns exactly that rate and the secondary provider is never invoked
(the fallback is short-circuiting). -/
theorem c2_primary_short_circuits (k : String) (q : ℚ) (secondary : ProviderResult) :
    (get_live_rate (some k)
        (ProviderResult.ok (some (RateJson.floatable q))) secondary).rate = some q ∧
    (get_live_rate (some k)
        (ProviderResult.ok (some (RateJson.floatable q))) secondary).secondaryCalled = false :=
  ⟨rfl, rfl⟩

/-- C3: with no credential configured, `get_live_rate` never calls the
primary provider and proceeds directly to the secondary provider, for
every behaviour of both providers. -/
theorem c3_no_credential_no_primary (primary secondary : ProviderResult) :
    (get_live_rate none primary secondary).primaryCalled = false ∧
    (get_live_rate none primary secondary).secondaryCalled = true :=
  ⟨rfl, rfl⟩

/-!
## Decision simulator (Hedge_app.py lines 256-267)
-/

/-- The four user-visible outcomes of the "Simulate Decision" button. -/
inductive SimDecision where
  | hedgeNow
  | wait
  | neutral
  | noPrediction
deriving DecidableEq

/-- The simulator branch (lines 258-267): with no predicted rate in the
log it reports that no prediction is available; otherwise it compares the
predicted rate with the user-supplied hypothetical rate. -/
def simulate_decision (predicted : Option ℚ) (hypothetical : ℚ) : SimDecision :=
  match predicted with
  | none => SimDecision.noPrediction
  | some p =>
    if p > hypothetical then SimDecision.hedgeNow
    else if p < hypothetical then SimDecision.wait
    else SimDecision.neutral

/-- C8: the decision simulator is a total three-way comparison —
`predicted > hypothetical` yields "hedge now", `predicted < hypothetical`
yields "wait", equality yields the neutral result, and a missing
prediction reports "no prediction available"; in particular
1.50000 vs 1.49000 gives "hedge now", 1.49000 vs 1.50000 gives "wait",
and 1.50000 vs 1.50000 gives "neutral". -/
theorem c8_simulator_three_way (p h : ℚ) :
    (h < p → simulate_decision (some p) h = SimDecision.hedgeNow) ∧
    (p < h → simulate_decision (some p) h = SimDecision.wait) ∧
    (p = h → simulate_decision (some p) h = SimDecision.neutral) ∧
    simulate_decision none h = SimDecision.noPrediction ∧
    simulate_decision (some 1.5) 1.49 = SimDecision.hedgeNow ∧
    simulate_decision (some 1.49) 1.5 = SimDecision.wait ∧
    simulate_decision (some 1.5) 1.5 = SimDecision.neutral := by
  refine ⟨?_, ?_, ?_, rfl, ?_, ?_, ?_⟩
  · intro hlt
    simp only [simulate_decision]
    rw [if_pos hlt]
  · intro hlt
    simp only [simulate_decision]
    rw [if_neg (lt_asymm hlt), if_pos hlt]
  · intro heq
    subst heq
    simp only [simulate_decision]
    rw [if_neg (lt_irrefl p), if_neg (lt_irrefl p)]
  · simp only [simulate_decision]
    rw [if_pos (by norm_num)]
  · simp only [simulate_decision]
    rw [if_neg (by norm_num), if_pos (by norm_num)]
  · simp only [simulate_decision]
    rw [if_neg (lt_irrefl (1.5 : ℚ)), if_neg (lt_irrefl (1.5 : ℚ))]

/-- Witness for C8 at concrete inputs. -/
theorem c8_simulator_three_way_witness :
    simulate_decision (some 2) 1 = SimDecision.hedgeNow ∧
    simulate_decision (some 1) 2 = SimDecision.wait ∧
    simulate_decision (some 2) 2 = SimDecision.neutral :=
  ⟨(c8_simulator_three_way 2 1).1 (by norm_num),
   (c8_simulator_three_way 1 2).2.1 (by norm_num),
   (c8_simulator_three_way 2 2).2.2.1 rfl⟩

/-!
## Tabular data model

A loaded pandas DataFrame is modelled as a list of column names plus
rows of cells, one cell per column.
-/

/-- A cell of the log: missing (`NaN`), a float, or a string. -/
inductive Val where
  | na
  | num (q : ℚ)
  | str (s : String)
deriving DecidableEq

/-- A loaded DataFrame. -/
structure DFrame where
  cols : List String
  rows : List (List Val)
deriving DecidableEq

/-- `pd.DataFrame()`: the empty frame returned on a missing or
unparseable file. -/
def emptyFrame : DFrame := ⟨[], []⟩

/-- Index of the first column with the given name. -/
def colIdxAux (c : String) : List String → Option Nat
  | [] => none
  | x :: xs => if x = c then some 0 else (colIdxAux c xs).map (fun i => i + 1)

/-- Position of a named column in the frame (first match). -/
def colIdx (df : DFrame) (c : String) : Option Nat :=
  colIdxAux c df.cols

/-- The cell series `log.<col>` of a named column (empty when the column
is absent; every access below is guarded by `"<col>" in log.columns`). -/
def colVals (df : DFrame) (c : String) : List Val :=
  match colIdx df c with
  | none => []
  | some i => df.rows.map (fun r => r.getD i Val.na)

/-- `Series.dropna()` on a numeric series: the numeric cells in order. -/
def dropnaNums (vals : List Val) : List ℚ :=
  vals.filterMap (fun v =>
    match v with
    | Val.num q => some q
    | _ => none)

/-- Numeric column check: every cell is `NaN` or a number (the stats of
line 218-219 are only meaningful on such columns; on a string cell
pandas `.pow` would raise). -/
def isNumericCell : Val → Bool
  | Val.na => true
  | Val.num _ => true
  | Val.str _ => false

/-- `Series.mean()`: `NaN` (modelled `none`) on an empty series. -/
def seriesMean (l : List ℚ) : Option ℚ :=
  if l = [] then none else some (l.sum / (l.length : ℚ))

/-- The radicand of line 218, `log.Error.dropna().pow(2).mean()`; the
displayed RMSE is its square root.  `none` models `float("nan")`, which
is also the value when the `Error` column is absent. -/
def rmseSq (df : DFrame) : Option ℚ :=
  if "Error" ∈ df.cols then
    seriesMean ((dropnaNums (colVals df "Error")).map (fun q => q * q))
  else none

/-- Line 219, `log.Error.dropna().abs().mean()`; `none` models
`float("nan")`. -/
def mae (df : DFrame) : Option ℚ :=
  if "Error" ∈ df.cols then
    seriesMean ((dropnaNums (colVals df "Error")).map (fun q => |q|))
  else none

/-- C6 as stated is false: it requires RMSE and MAE to be "not
available" exactly when the `Error` column is absent, but a frame whose
`Error` column is present with only null cells also yields `NaN` for
both (mean of an empty series). -/
theorem c6_counterexample :
    "Error" ∈ (DFrame.mk ["Error"] [[Val.na]]).cols ∧
    rmseSq (DFrame.mk ["Error"] [[Val.na]]) = none ∧
    mae (DFrame.mk ["Error"] [[Val.na]]) = none := by
  refine ⟨by simp, ?_, ?_⟩ <;> decide

/-- C6 amended: RMSE and MAE are "not available" when the `Error` column
is absent (and also when it holds no non-null value); for every log whose
`Error` column is numeric and has at least one non-null value, both are
available and non-negative — the displayed RMSE being the square root of
the non-negative mean `rmseSq`. -/
theorem c6_amended_rmse_mae (df : DFrame) :
    ("Error" ∉ df.cols → rmseSq df = none ∧ mae df = none) ∧
    ("Error" ∈ df.cols →
      (∀ v ∈ colVals df "Error", isNumericCell v = true) →
      dropnaNums (colVals df "Error") ≠ [] →
      ∃ m a, rmseSq df = some m ∧ 0 ≤ m ∧ mae df = some a ∧ 0 ≤ a) := by
  constructor
  · intro h
    constructor
    · unfold rmseSq
      rw [if_neg h]
    · unfold mae
      rw [if_neg h]
  · intro hmem _ hne
    have hsq : (dropnaNums (colVals df "Error")).map (fun q => q * q) ≠ [] := by
      simpa using hne
    have hab : (dropnaNums (colVals df "Error")).map (fun q => |q|) ≠ [] := by
      simpa using hne
    refine ⟨((dropnaNums (colVals df "Error")).map (fun q => q * q)).sum /
        (((dropnaNums (colVals df "Error")).map (fun q => q * q)).length : ℚ),
      ((dropnaNums (colVals df "Error")).map (fun q => |q|)).sum /
        (((dropnaNums (colVals df "Error")).map (fun q => |q|)).length : ℚ),
      ?_, ?_, ?_, ?_⟩
    · unfold rmseSq
      rw [if_pos hmem]
      unfold seriesMean
      rw [if_neg hsq]
    · apply div_nonneg
      · apply List.sum_nonneg
        intro x hx
        obtain ⟨q, _, hq⟩ := List.mem_map.mp hx
        rw [← hq]
        exact mul_self_nonneg q
      · exact_mod_cast Nat.zero_le _
    · unfold mae
      rw [if_pos hmem]
      unfold seriesMean
      rw [if_neg hab]
    · apply div_nonneg
      · apply List.sum_nonneg
        intro x hx
        obtain ⟨q, _, hq⟩ := List.mem_map.mp hx
        rw [← hq]
        exact abs_nonneg q
      · exact_mod_cast Nat.zero_le _

/-- Witness for C6 (amended) on a one-row numeric log. -/
theorem c6_amended_rmse_mae_witness :
    ∃ m a, rmseSq (DFrame.mk ["Error"] [[Val.num 2]]) = some m ∧ 0 ≤ m ∧
      mae (DFrame.mk ["Error"] [[Val.num 2]]) = some a ∧ 0 ≤ a :=
  (c6_amended_rmse_mae (DFrame.mk ["Error"] [[Val.num 2]])).2
    (by simp) (by decide) (by decide)

/-!
## Filter-by-decision (Hedge_app.py line 205)
-/

/-- The boolean mask `log.Decision == selected_decision`: pandas
elementwise equality — `False` on `NaN` and on any cell different from
the (string) selection. -/
def decisionMask (df : DFrame) (v : String) : List Bool :=
  (colVals df "Decision").map (fun cell => cell == Val.str v)

/-- Boolean-mask row selection `log[mask]`. -/
def maskFilter {α : Type} : List α → List Bool → List α
  | [], _ => []
  | _ :: _, [] => []
  | r :: rs, b :: bs => if b then r :: maskFilter rs bs else maskFilter rs bs

/-- `filtered_log` (line 205): the masked rows when a concrete decision
is selected and the column exists, the whole log otherwise. -/
def filtered_log (df : DFrame) (v : String) : DFrame :=
  if v ≠ "All" ∧ "Decision" ∈ df.cols then
    ⟨df.cols, maskFilter df.rows (decisionMask df v)⟩
  else df

/-- Position of the `Decision` column (meaningful when it exists). -/
def decisionIdx (df : DFrame) : Nat :=
  (colIdx df "Decision").getD 0

lemma maskFilter_map {α : Type} (p : α → Bool) (l : List α) :
    maskFilter l (l.map p) = l.filter p := by
  induction l with
  | nil => rfl
  | cons x xs ih =>
    by_cases hx : p x
    · simp only [List.map_cons, maskFilter, List.filter, hx, if_pos, if_true]
      rw [ih]
    · simp only [List.map_cons, maskFilter, List.filter, hx]
      simp only [if_false, Bool.false_eq_true]
      rw [ih]

lemma colIdxAux_mem {c : String} {L : List String} (h : c ∈ L) :
    ∃ i, colIdxAux c L = some i := by
  induction L with
  | nil => simp at h
  | cons x xs ih =>
    by_cases hx : x = c
    · exact ⟨0, by simp [colIdxAux, hx]⟩
    · have hc : c ∈ xs := by
        rcases List.mem_cons.mp h with h1 | h1
        · exact absurd h1.symm hx
        · exact h1
      obtain ⟨i, hi⟩ := ih hc
      exact ⟨i + 1, by simp [colIdxAux, hx, hi]⟩

/-- C7: filter-by-decision with value "All" returns the log unchanged;
the same holds when the `Decision` column does not exist; otherwise it
returns exactly the rows whose `Decision` cell equals the supplied
value, with the columns untouched. -/
theorem c7_filter_by_decision (df : DFrame) (v : String) :
    (v = "All" → filtered_log df v = df) ∧
    ("Decision" ∉ df.cols → filtered_log df v = df) ∧
    (v ≠ "All" → "Decision" ∈ df.cols →
      (filtered_log df v).cols = df.cols ∧
      (filtered_log df v).rows =
        df.rows.filter (fun r => r.getD (decisionIdx df) Val.na == Val.str v)) := by
  refine ⟨?_, ?_, ?_⟩
  · intro hv
    unfold filtered_log
    rw [if_neg (by simp [hv])]
  · intro hmem
    unfold filtered_log
    rw [if_neg (by simp [hmem])]
  · intro hv hmem
    obtain ⟨i, hi⟩ := colIdxAux_mem hmem
    have hidx : colIdx df "Decision" = some i := hi
    have hgd : decisionIdx df = i := by
      unfold decisionIdx
      rw [hidx]
      rfl
    have hcv : colVals df "Decision" = df.rows.map (fun r => r.getD i Val.na) := by
      unfold colVals
      rw [hidx]
    constructor
    · unfold filtered_log
      rw [if_pos ⟨hv, hmem⟩]
    · unfold filtered_log
      rw [if_pos ⟨hv, hmem⟩]
      show maskFilter df.rows (decisionMask df v) = _
      unfold decisionMask
      rw [hcv, List.map_map, hgd]
      exact maskFilter_map _ df.rows

/-- Witness for C7 on a small concrete log. -/
theorem c7_filter_by_decision_witness :
    (filtered_log (DFrame.mk ["Decision"] [[Val.str "Hedge now"], [Val.str "Wait"]]) "All" =
      DFrame.mk ["Decision"] [[Val.str "Hedge now"], [Val.str "Wait"]]) ∧
    (filtered_log (DFrame.mk ["Decision"] [[Val.str "Hedge now"], [Val.str "Wait"]]) "Wait").rows =
      (DFrame.mk ["Decision"] [[Val.str "Hedge now"], [Val.str "Wait"]]).rows.filter
        (fun r => r.getD (decisionIdx (DFrame.mk ["Decision"] [[Val.str "Hedge now"], [Val.str "Wait"]])) Val.na ==
          Val.str "Wait") :=
  ⟨(c7_filter_by_decision (DFrame.mk ["Decision"] [[Val.str "Hedge now"], [Val.str "Wait"]]) "All").1 rfl,
   ((c7_filter_by_decision (DFrame.mk ["Decision"] [[Val.str "Hedge now"], [Val.str "Wait"]]) "Wait").2.2
     (by decide) (by simp)).2⟩

/-!
## LogRepository: `load_hedge_log_for_pair` (Hedge_app.py lines 100-160)

The file system is a map from file names to files; a file is its list of
comma-split lines.
-/

/-- A decimal digit character. -/
def digitChar (d : Nat) : Char :=
  if d = 0 then '0' else if d = 1 then '1' else if d = 2 then '2'
  else if d = 3 then '3' else if d = 4 then '4' else if d = 5 then '5'
  else if d = 6 then '6' else if d = 7 then '7' else if d = 8 then '8'
  else '9'

/-- Decimal rendering of a natural number, as in the f-string
`f"col_{i}"`. -/
def natChars (n : Nat) : List Char :=
  if h : n < 10 then [digitChar n]
  else natChars (n / 10) ++ [digitChar (n % 10)]
decreasing_by exact Nat.div_lt_self (by omega) (by omega)

/-- The synthetic column name `f"col_{i}"` of line 126. -/
def colName (i : Nat) : String :=
  String.mk ('c' :: 'o' :: 'l' :: '_' :: natChars i)

/-- One parsed CSV record: the fields of one line. -/
abbrev CsvLine := List String

/-- `pd.read_csv(path)` with the default header: the first line gives
the column names, the remaining lines the rows.  `none` models the
`EmptyDataError` raised on an empty file. -/
def read_csv_default (lines : List CsvLine) : Option DFrame :=
  match lines with
  | [] => none
  | hd :: tl => some ⟨hd, tl.map (fun r => r.map Val.str)⟩

/-- `pd.read_csv(path, header=None)` followed by the renaming of line
126: every line is a data row and the columns get the synthetic names
`col_0 … col_{n-1}`. -/
def read_csv_no_header (lines : List CsvLine) : DFrame :=
  ⟨(List.range (lines.headD []).length).map colName,
   lines.map (fun r => r.map Val.str)⟩

/-- Column normalization of line 127 applied to a whole frame. -/
def normalizeFrame (df : DFrame) : DFrame :=
  ⟨df.cols.map normalizeCol, df.rows⟩

/-- The parsing chain of `load_hedge_log_for_pair` (lines 122-131):
default parse; when it yields zero rows but more than one column,
reparse with no header; then normalize the column names.  An empty file
— the only failure of the modelled default parse; the retry chain of
lines 135-157 fails on it as well — ends at the final empty frame of
line 160. -/
def parse_hedge_log (lines : List CsvLine) : DFrame :=
  match read_csv_default lines with
  | none => emptyFrame
  | some df =>
    if df.rows.length = 0 ∧ 1 < df.cols.length then
      normalizeFrame (read_csv_no_header lines)
    else normalizeFrame df

/-- The storage key of line 101:
`f"hedge_log_{base.lower()}{quote.lower()}.csv"`. -/
def hedge_log_filename (base quote : String) : String :=
  "hedge_log_" ++ base.toLower ++ quote.toLower ++ ".csv"

/-- `load_hedge_log_for_pair` (lines 100-160) over an explicit file
system: a missing file returns the empty frame (line 108); otherwise the
file is parsed by the chain above. -/
def load_hedge_log_for_pair (fs : String → Option (List CsvLine))
    (base quote : String) : DFrame :=
  match fs (hedge_log_filename base quote) with
  | none => emptyFrame
  | some lines => parse_hedge_log lines

lemma digitChar_not_space (d : Nat) : isPySpace (digitChar d) = false := by
  unfold digitChar
  split_ifs <;> decide

lemma natChars_not_space (n : Nat) : ∀ c ∈ natChars n, isPySpace c = false := by
  induction n using Nat.strong_induction_on with
  | _ n ih =>
    by_cases h10 : n < 10
    · rw [natChars, dif_pos h10]
      intro c hc
      simp at hc
      rw [hc]
      exact digitChar_not_space n
    · rw [natChars, dif_neg h10]
      intro c hc
      rw [List.mem_append] at hc
      rcases hc with hc | hc
      · exact ih (n / 10) (Nat.div_lt_self (by omega) (by omega)) c hc
      · simp at hc
        rw [hc]
        exact digitChar_not_space (n % 10)

/-- The synthetic `col_i` names are already normalized. -/
lemma colName_normalized (i : Nat) : normalizeCol (colName i) = colName i := by
  unfold normalizeCol colName
  apply congrArg String.mk
  apply normalizeChars_eq_self_of_no_ws
  intro c hc
  have hdata : (String.mk ('c' :: 'o' :: 'l' :: '_' :: natChars i)).data =
      'c' :: 'o' :: 'l' :: '_' :: natChars i := rfl
  rw [hdata] at hc
  simp only [List.mem_cons] at hc
  rcases hc with hc | hc | hc | hc | hc
  · rw [hc]; decide
  · rw [hc]; decide
  · rw [hc]; decide
  · rw [hc]; decide
  · exact natChars_not_space i c hc

/-- C4: for every currency pair whose derived storage key has no backing
file, `load_hedge_log_for_pair` returns the empty frame rather than
raising or signalling an error. -/
theorem c4_missing_file_empty_log (fs : String → Option (List CsvLine))
    (base quote : String)
    (h : fs (hedge_log_filename base quote) = none) :
    load_hedge_log_for_pair fs base quote = emptyFrame := by
  unfold load_hedge_log_for_pair
  rw [h]

/-- Witness for C4 on an empty file system. -/
theorem c4_missing_file_empty_log_witness :
    load_hedge_log_for_pair (fun _ => none) "NZD" "USD" = emptyFrame :=
  c4_missing_file_empty_log (fun _ => none) "NZD" "USD" rfl

/-- C9: when the default parse of an existing file yields zero rows but
more than one column (a header-only file), the loader reparses with no
header: the returned columns are the synthetic names `col_0 … col_{n-1}`
and the file's own header line becomes the first (and only) data row. -/
theorem c9_header_only_reparse (hd : CsvLine) (h : 1 < hd.length) :
    (parse_hedge_log [hd]).cols = (List.range hd.length).map colName ∧
    (parse_hedge_log [hd]).rows = [hd.map Val.str] := by
  have hred : parse_hedge_log [hd] =
      if ([] : List (List Val)).length = 0 ∧ 1 < hd.length then
        normalizeFrame (read_csv_no_header [hd])
      else normalizeFrame ⟨hd, []⟩ := rfl
  rw [hred, if_pos ⟨rfl, h⟩]
  constructor
  · show ((List.range (([hd].headD []).length)).map colName).map normalizeCol =
      (List.range hd.length).map colName
    rw [List.map_map]
    apply List.map_congr_left
    intro i _
    exact colName_normalized i
  · rfl

/-- Witness for C9 on a two-column header-only file. -/
theorem c9_header_only_reparse_witness :
    (parse_hedge_log [["Time stamp", "Error"]]).cols =
      (List.range (["Time stamp", "Error"] : CsvLine).length).map colName ∧
    (parse_hedge_log [["Time stamp", "Error"]]).rows =
      [(["Time stamp", "Error"] : CsvLine).map Val.str] :=
  c9_header_only_reparse ["Time stamp", "Error"] (by decide)

/-!
## Fallback `.env` parser of `_load_api_key` (Hedge_app.py lines 42-51)

The process environment is an ordered association list; `os.getenv` is
lookup of the first match and `os.environ.setdefault` appends only when
the key is absent.
-/

/-- `os.getenv(k)` on the modelled environment. -/
def envGet : List (String × String) → String → Option String
  | [], _ => none
  | p :: rest, k => if p.1 = k then some p.2 else envGet rest k

/-- `os.environ.setdefault(k, v)`: keep an existing entry untouched,
append the pair otherwise. -/
def setdefault (env : List (String × String)) (k v : String) :
    List (String × String) :=
  match envGet env k with
  | some _ => env
  | none => env ++ [(k, v)]

/-- `line.split("=", 1)`: split at the first equals sign. -/
def splitEqOnce : List Char → List Char × List Char
  | [] => ([], [])
  | c :: t =>
    if c = '=' then ([], t)
    else
      let p := splitEqOnce t
      (c :: p.1, p.2)

/-- The line filter of line 45: skip empty lines, lines whose stripped
text starts with `#`, and lines without an equals sign. -/
def lineSkipped (line : List Char) : Bool :=
  line.isEmpty || (pyStrip line).head? == some '#' || !(line.contains '=')

/-- The `KEY=VALUE` pair contributed by a non-skipped line:
`k.strip()` and `v.strip()` of `k, v = line.split("=", 1)`. -/
def lineKV (line : List Char) : Option (String × String) :=
  if lineSkipped line then none
  else some (String.mk (pyStrip (splitEqOnce line).1),
             String.mk (pyStrip (splitEqOnce line).2))

/-- One iteration of the fallback loader loop (lines 44-48). -/
def processEnvLine (env : List (String × String)) (line : List Char) :
    List (String × String) :=
  match lineKV line with
  | none => env
  | some kv => setdefault env kv.1 kv.2

/-- The whole fallback `.env` loader of lines 44-48: fold the loop body
over the file's lines, starting from the current process environment. -/
def load_env_fallback (lines : List (List Char))
    (env : List (String × String)) : List (String × String) :=
  lines.foldl processEnvLine env

/-- The value the `.env` file binds to key `k`: the first non-skipped
`KEY=VALUE` line whose stripped key is `k`. -/
def fileLookup (lines : List (List Char)) (k : String) : Option String :=
  match (lines.filterMap lineKV).find? (fun p => p.1 == k) with
  | none => none
  | some p => some p.2

lemma envGet_append_single (env : List (String × String)) (k k1 v1 : String) :
    envGet (env ++ [(k1, v1)]) k =
      match envGet env k with
      | some v => some v
      | none => if k1 = k then some v1 else none := by
  induction env with
  | nil => rfl
  | cons p rest ih =>
    by_cases hp : p.1 = k
    · simp [envGet, hp]
    · simp only [List.cons_append, envGet, if_neg hp]
      exact ih

lemma envGet_setdefault_of_some {env : List (String × String)} {k : String}
    (k1 v1 : String) (h : (envGet env k).isSome) :
    envGet (setdefault env k1 v1) k = envGet env k := by
  unfold setdefault
  rcases h1 : envGet env k1 with _ | w
  · rw [envGet_append_single]
    rcases h2 : envGet env k with _ | v
    · rw [h2] at h
      simp at h
    · rfl
  · rfl

lemma envGet_setdefault_of_none {env : List (String × String)} {k : String}
    (v1 : String) (h : envGet env k = none) :
    envGet (setdefault env k v1) k = some v1 := by
  unfold setdefault
  rw [h, envGet_append_single, h]
  simp

lemma envGet_setdefault_of_ne {env : List (String × String)} {k k1 : String}
    (v1 : String) (h : k1 ≠ k) :
    envGet (setdefault env k1 v1) k = envGet env k := by
  unfold setdefault
  rcases h1 : envGet env k1 with _ | w
  · rw [envGet_append_single]
    rcases h2 : envGet env k with _ | v
    · simp [h]
    · rfl
  · rfl

lemma load_env_preserves {lines : List (List Char)}
    {env : List (String × String)} {k : String}
    (h : (envGet env k).isSome) :
    envGet (load_env_fallback lines env) k = envGet env k := by
  induction lines generalizing env with
  | nil => rfl
  | cons line rest ih =>
    show envGet (load_env_fallback rest (processEnvLine env line)) k = envGet env k
    have hstep : envGet (processEnvLine env line) k = envGet env k := by
      unfold processEnvLine
      rcases hkv : lineKV line with _ | kv
      · rfl
      · exact envGet_setdefault_of_some kv.1 kv.2 h
    rw [ih (by rw [hstep]; exact h), hstep]

lemma load_env_fills {lines : List (List Char)}
    {env : List (String × String)} {k : String}
    (h : envGet env k = none) :
    envGet (load_env_fallback lines env) k = fileLookup lines k := by
  induction lines generalizing env with
  | nil => simpa [load_env_fallback, fileLookup] using h
  | cons line rest ih =>
    show envGet (load_env_fallback rest (processEnvLine env line)) k = _
    rcases hkv : lineKV line with _ | kv
    · have hstep : processEnvLine env line = env := by
        unfold processEnvLine
        rw [hkv]
      have hfile : fileLookup (line :: rest) k = fileLookup rest k := by
        unfold fileLookup
        rw [List.filterMap_cons_none hkv]
      rw [hstep, hfile]
      exact ih h
    · have hstep : processEnvLine env line = setdefault env kv.1 kv.2 := by
        unfold processEnvLine
        rw [hkv]
      by_cases hk : kv.1 = k
      · have hset : envGet (processEnvLine env line) k = some kv.2 := by
          rw [hstep, ← hk]
          exact envGet_setdefault_of_none kv.2 (by rw [hk]; exact h)
        rw [load_env_preserves (by rw [hset]; simp), hset]
        unfold fileLookup
        rw [List.filterMap_cons_some hkv]
        rw [List.find?_cons_of_pos _ (by simp [hk])]
      · have hset : envGet (processEnvLine env line) k = none := by
          rw [hstep]
          rw [envGet_setdefault_of_ne kv.2 hk]
          exact h
        have hfile : fileLookup (line :: rest) k = fileLookup rest k := by
          unfold fileLookup
          rw [List.filterMap_cons_some hkv]
          rw [List.find?_cons_of_neg _ (by simp [hk])]
        rw [hfile]
        exact ih hset

/-- C10: the fallback `.env` parser writes every `KEY=VALUE` pair found
in the file into the process environment — each key receives the file's
first binding for it, and not only `FX_API_KEY` is affected — while an
environment variable that is already set is never overridden. -/
theorem c10_env_fallback_side_effect (lines : List (List Char))
    (env : List (String × String)) (k : String) :
    ((envGet env k).isSome →
      envGet (load_env_fallback lines env) k = envGet env k) ∧
    (envGet env k = none →
      envGet (load_env_fallback lines env) k = fileLookup lines k) :=
  ⟨fun h => load_env_preserves h, fun h => load_env_fills h⟩

/-- Witness for C10: a file binding both `FX_API_KEY` (already set, kept)
and an unrelated `OTHER_KEY` (absent, written). -/
theorem c10_env_fallback_side_effect_witness :
    (envGet (load_env_fallback
        ["OTHER_KEY=other value".data, "FX_API_KEY=from file".data]
        [("FX_API_KEY", "prior")]) "FX_API_KEY" =
      envGet [("FX_API_KEY", "prior")] "FX_API_KEY") ∧
    (envGet (load_env_fallback
        ["OTHER_KEY=other value".data, "FX_API_KEY=from file".data]
        [("FX_API_KEY", "prior")]) "OTHER_KEY" =
      fileLookup ["OTHER_KEY=other value".data, "FX_API_KEY=from file".data]
        "OTHER_KEY") :=
  ⟨(c10_env_fallback_side_effect
      ["OTHER_KEY=other value".data, "FX_API_KEY=from file".data]
      [("FX_API_KEY", "prior")] "FX_API_KEY").1 (by decide),
   (c10_env_fallback_side_effect
      ["OTHER_KEY=other value".data, "FX_API_KEY=from file".data]
      [("FX_API_KEY", "prior")] "OTHER_KEY").2 (by decide)⟩
